import Mathlib

/-!
# httpmsg-enrichment: the enrichment pipeline

A shallow embedding of `enricher.go`, `enrichment.go` and `subenrichment-mime.go`.

* Go strings are Lean strings; the `strings`/`strconv` helpers the pipeline calls are
  written out over the character list of the string.
* `map[string][]string` is an association list whose order is the iteration order of one
  particular `range` loop over the map.
* The inspection engine (`coraza.Transaction`) is a recording double: it logs every call
  the pipeline makes and answers from canned fields.
* The sniffer goroutine and its `io.Pipe` are a sequential rendezvous model: a write
  returns only when the reader side has taken every byte of it.
-/

set_option autoImplicit false

namespace Enrichment

/-! ## `strings` and `strconv` -/

/-- Go `strings.HasPrefix`. -/
def HasPrefix (s pre : String) : Bool :=
  pre.data.isPrefixOf s.data

/-- Go `strings.TrimPrefix`: `s` without the leading `pre`; `s` itself, unchanged, when it
does not start with `pre`. -/
def TrimPrefix (s pre : String) : String :=
  if HasPrefix s pre then ⟨s.data.drop pre.data.length⟩ else s

/-- Lower-casing of one ASCII character: `c += 'a' - 'A'` when `'A' <= c && c <= 'Z'`. -/
def lowerChar (c : Char) : Char :=
  if 'A' ≤ c ∧ c ≤ 'Z' then Char.ofNat (c.toNat + 32) else c

/-- Go `unicode.ToLower`: a rune up to `MaxASCII` is lowered by arithmetic, any other rune by
`To(LowerCase, r)`, that is through the case table of the Go library, `caseTable` here. -/
def unicodeToLower (caseTable : Char → Char) (c : Char) : Char :=
  if c.toNat ≤ 127 then lowerChar c else caseTable c

/-- Go `strings.ToLower`: a string of ASCII characters only is lowered character by
character by arithmetic, any other string is `Map(unicode.ToLower, s)`. -/
def ToLower (caseTable : Char → Char) (s : String) : String :=
  if s.data.all (fun c => decide (c.toNat < 128)) then ⟨s.data.map lowerChar⟩
  else ⟨s.data.map (unicodeToLower caseTable)⟩

/-- Scan of `strings.Split` for a non-empty separator: `cur` is the piece being collected
(reversed), `skip` the number of separator characters still to pass over. -/
def splitGo (sep : List Char) : List Char → List Char → Nat → List String
  | [], cur, _ => [⟨cur.reverse⟩]
  | _ :: cs, cur, skip + 1 => splitGo sep cs cur skip
  | c :: cs, cur, 0 =>
    if sep.isPrefixOf (c :: cs) then ⟨cur.reverse⟩ :: splitGo sep cs [] (sep.length - 1)
    else splitGo sep cs (c :: cur) 0

/-- Go `strings.Split`: the pieces of `s` between the occurrences of `sep`; with an empty
separator, the characters of `s`. -/
def Split (s sep : String) : List String :=
  if sep.data = [] then s.data.map (fun c => ⟨[c]⟩) else splitGo sep.data s.data [] 0

/-- Go `strings.Join`. -/
def Join : List String → String → String
  | [], _ => ""
  | [a], _ => a
  | a :: b :: rest, sep => a ++ sep ++ Join (b :: rest) sep

/-- The error half of a `strconv` result. -/
inductive NumError where
  | none
  | malformed
  | range
  deriving DecidableEq, Repr

/-- Loop of `strconv.ParseUint(s, 10, bitSize)` over the remaining characters, `n` being the
`uint64` accumulator. -/
def parseUintLoop (maxVal : Nat) : List Char → Nat → Nat × NumError
  | [], n => (n, NumError.none)
  | c :: cs, n =>
    if '0' ≤ c ∧ c ≤ '9' then
      let d := c.toNat - '0'.toNat
      if n ≥ (2 ^ 64 - 1) / 10 + 1 then (maxVal, NumError.range)
      else
        let n10 := n * 10
        let n1 := (n10 + d) % 2 ^ 64
        if n1 < n10 ∨ n1 > maxVal then (maxVal, NumError.range)
        else parseUintLoop maxVal cs n1
    else (0, NumError.malformed)

/-- Go `strconv.ParseUint(s, 10, bitSize)`. -/
def ParseUint (s : String) (bitSize : Nat) : Nat × NumError :=
  if s.data = [] then (0, NumError.malformed)
  else parseUintLoop (2 ^ (if bitSize = 0 then 64 else bitSize) - 1) s.data 0

/-- Go `strconv.ParseInt(s, 10, bitSize)`: value and error. On a syntax error the value is
0, on a range error the nearest bound. -/
def ParseInt (s : String) (bitSize : Nat) : Int × NumError :=
  match s.data with
  | [] => (0, NumError.malformed)
  | c :: cs =>
    let neg := c = '-'
    let digits : String := if c = '+' ∨ c = '-' then ⟨cs⟩ else s
    let (un, err) := ParseUint digits bitSize
    if err = NumError.malformed then (0, NumError.malformed)
    else
      let cutoff : Nat := 2 ^ ((if bitSize = 0 then 64 else bitSize) - 1)
      if ¬ neg ∧ un ≥ cutoff then ((cutoff : Int) - 1, NumError.range)
      else if neg ∧ un > cutoff then (-(cutoff : Int), NumError.range)
      else if neg then (-(un : Int), NumError.none)
      else ((un : Int), NumError.none)

/-- Go `strconv.Atoi`, which is `ParseInt(s, 10, 0)` on a 64-bit platform. -/
def Atoi (s : String) : Int × NumError :=
  ParseInt s 0

/-- Modelled from the spec: `Truncate` is called by both `toECS` but defined outside the
given sources; the spec says a matched value longer than the limit is cut to exactly that
many characters and a shorter one passes through unchanged. -/
def Truncate (s : String) (n : Nat) : String :=
  ⟨s.data.take n⟩

/-! ## Findings and threat indicators -/

/-- One `coraza.MatchedRule`, reduced to what the pipeline reads from it. -/
structure MatchedRule where
  /-- The value of `rule.ErrorLog(0)`. -/
  ErrorLog : String
  ClientIPAddress : String
  /-- The value of `rule.Rule.Version`. -/
  Version : String
  /-- The value of `rule.Rule.Tags`. -/
  Tags : List String
  /-- The value of `rule.MatchedData.Value`. -/
  Value : String
  /-- The value of `rule.MatchedData.VariableName`. -/
  VariableName : String
  deriving DecidableEq, Repr

/-- The type `ecs.ThreatIndicator`. -/
structure ThreatIndicator where
  Description : String
  IP : Option String
  Provider : String
  Type_ : String
  Confidence : String
  deriving DecidableEq, Repr

/-- The type `ecs.ThreatEnrichmentMatch`. -/
structure ThreatEnrichmentMatch where
  Type_ : String
  Atomic : String
  Field : String
  deriving DecidableEq, Repr

/-- The type `ecs.ThreatEnrichments`. -/
structure ThreatEnrichments where
  Indicator : ThreatIndicator
  Match : ThreatEnrichmentMatch
  deriving DecidableEq, Repr

/-- The two variables the tag loop of `toECS` updates: `atk` and `idc.Confidence`. -/
structure TagScan where
  atk : Bool
  Confidence : String
  deriving DecidableEq, Repr

/-- The `switch i` of the tag loop. -/
def confidenceOf (i : Int) : String :=
  if i = 1 then "High"
  else if i = 2 then "Medium"
  else if i = 3 ∨ i = 4 then "Low"
  else "Not Specified"

/-- One iteration of `for _, tag := range rule.Rule.Tags` (the same text in both files). -/
def scanTag (st : TagScan) (tag : String) : TagScan :=
  let atk := st.atk || HasPrefix tag "attack-"
  let pl := TrimPrefix tag "paranoia-level/"
  if pl = "" then { st with atk := atk }
  else { atk := atk, Confidence := confidenceOf (ParseInt pl 8).1 }

/-- The whole tag loop, from `atk := false` and the zero `Confidence`. -/
def scanTags (tags : List String) : TagScan :=
  tags.foldl scanTag { atk := false, Confidence := "" }

/-! ## Header maps -/

/-- Go `map[string][]string` (`http.Header`), listed in the order in which one `range` loop
visits its entries. -/
abbrev Header := List (String × List String)

/-- Map read `m[k]`. -/
def Header.lookup : Header → String → Option (List String)
  | [], _ => none
  | (k', v) :: rest, k => if k' = k then some v else Header.lookup rest k

/-- Map write `m[k] = v`. -/
def Header.set : Header → String → List String → Header
  | [], k, v => [(k, v)]
  | (k', v') :: rest, k, v =>
    if k' = k then (k, v) :: rest else (k', v') :: Header.set rest k v

/-- The keys of a map. -/
def Header.keys (m : Header) : List String :=
  m.map Prod.fst

/-- Upper-casing of one ASCII character. -/
def upperChar (c : Char) : Char :=
  if 'a' ≤ c ∧ c ≤ 'z' then Char.ofNat (c.toNat - 32) else c

/-- The characters `textproto` accepts in a header field name. -/
def validHeaderFieldByte (c : Char) : Bool :=
  c.isAlphanum || "!#$%&*+-.^_|~\x27\x60".data.contains c

/-- Loop of `textproto.CanonicalMIMEHeaderKey`: `upper` says whether the next letter is the
first of a word. -/
def canonicalLoop : Bool → List Char → List Char
  | _, [] => []
  | upper, c :: cs => (if upper then upperChar c else lowerChar c) :: canonicalLoop (c = '-') cs

/-- Go `textproto.CanonicalMIMEHeaderKey`. -/
def CanonicalMIMEHeaderKey (s : String) : String :=
  if s.data.all validHeaderFieldByte then ⟨canonicalLoop true s.data⟩ else s

/-- Go `http.Header.Get`: the first value under the canonical form of `key`, or `""`. -/
def Header.Get (h : Header) (key : String) : String :=
  match h.lookup (CanonicalMIMEHeaderKey key) with
  | some (v :: _) => v
  | _ => ""

/-- Variables of the closure `toLower` in `enrichment.toECS`: its argument and its local. -/
structure toLowerVars where
  m : Header
  nm : Header
  deriving DecidableEq, Repr

/-- Body of `for k, v := range m` in `toLower`: the statement `nm[strings.ToLower(k)] = v`. -/
def toLowerStep (caseTable : Char → Char) (st : toLowerVars) (kv : String × List String) :
    toLowerVars :=
  { st with nm := st.nm.set (ToLower caseTable kv.1) kv.2 }

/-- The closure `toLower` run to its `return`, on argument `m`. -/
def toLowerRun (caseTable : Char → Char) (m : Header) : toLowerVars :=
  m.foldl (toLowerStep caseTable) { m := m, nm := [] }

/-- The closure `toLower` of `enrichment.toECS`: the returned map. -/
def toLower (caseTable : Char → Char) (m : Header) : Header :=
  (toLowerRun caseTable m).nm

/-! ## Recorded messages -/

/-- A body stream (`io.ReadCloser`): the non-empty reads it yields, then end of stream
(`err = none`) or a read error. -/
structure Body where
  chunks : List String
  err : Option String
  deriving DecidableEq, Repr

/-- The parts of `*url.URL` the pipeline reads. -/
structure URL where
  /-- The value of `URL.String()`. -/
  Full : String
  Host : String
  /-- The value of `URL.Query().Encode()`. -/
  Query : String
  Fragment : String
  Path : String
  Scheme : String
  deriving DecidableEq, Repr

/-- The parts of `*http.Request` the pipeline reads. -/
structure Request where
  Method : String
  Proto : String
  ProtoMajor : Nat
  ProtoMinor : Nat
  Host : String
  RemoteAddr : String
  URL : URL
  Header : Header
  TransferEncoding : List String
  Body : Body
  deriving DecidableEq, Repr

/-- The parts of `*http.Response` the pipeline reads. -/
structure Response where
  StatusCode : Int
  Proto : String
  Header : Header
  TransferEncoding : List String
  Body : Body
  deriving DecidableEq, Repr

/-- The capture-time context returned by `httpRecordedMessage.Context()`, reduced to the
fields `enrichment.toECS` reads. -/
structure Context where
  ID : String
  /-- The value of `Durations.Proxy.Start`. -/
  ProxyStart : String
  /-- The value of `Durations.Total.Start`. -/
  TotalStart : String
  /-- The value of `Durations.Total.End`. -/
  TotalEnd : String
  /-- The value of `Credential.Username`, when `Credential` is not nil. -/
  Credential : Option String
  /-- The value of `Connection.Client.IP`, when `Connection` is not nil. -/
  Connection : Option String
  deriving DecidableEq, Repr

/-- A stored record (the `io.Reader` given to `EnrichRecord`), as what parsing each of its
parts yields. -/
structure Record where
  request : Except String Request
  response : Except String Response
  context : Except String Context

/-- Modelled from the spec: `httpRecordedMessage` is defined outside the given sources. The
spec says it parses a stored byte stream into a lazily readable request and response and
carries the capture-time context; the pipeline reads its fields `req` and `res`, which it
sets on first access. -/
structure httpRecordedMessage where
  record : Record
  req : Option Request
  res : Option Response
  /-- Number of `Close` calls on the request body. -/
  reqBodyClosed : Nat
  /-- Number of `Close` calls on the response body. -/
  resBodyClosed : Nat

/-- Modelled from the spec: `newHTTPRecordedMessage`, nothing parsed yet. -/
def newHTTPRecordedMessage (record : Record) : httpRecordedMessage :=
  { record := record, req := none, res := none, reqBodyClosed := 0, resBodyClosed := 0 }

/-- Modelled from the spec: `httpRecordedMessage.Request()`, the request parsed on first
access and remembered in `req`. -/
def httpRecordedMessage.Request (msg : httpRecordedMessage) :
    httpRecordedMessage × Except String Request :=
  match msg.req with
  | some r => (msg, Except.ok r)
  | none =>
    match msg.record.request with
    | Except.ok r => ({ msg with req := some r }, Except.ok r)
    | Except.error e => (msg, Except.error e)

/-- Modelled from the spec: `httpRecordedMessage.Response()`, the response parsed on first
access and remembered in `res`; a framing error is one of the parse errors. -/
def httpRecordedMessage.Response (msg : httpRecordedMessage) :
    httpRecordedMessage × Except String Response :=
  match msg.res with
  | some r => (msg, Except.ok r)
  | none =>
    match msg.record.response with
    | Except.ok r => ({ msg with res := some r }, Except.ok r)
    | Except.error e => (msg, Except.error e)

/-- Modelled from the spec: `httpRecordedMessage.Context()`. -/
def httpRecordedMessage.Context (msg : httpRecordedMessage) : Except String Context :=
  msg.record.context

/-! ## Bounded buffer, sniffer and engine double -/

/-- Modelled from the spec: `truncatedBuffer` is defined outside the given sources. The spec
says that a write always succeeds and accepts all input while only the first `limit` bytes
are retained. -/
structure truncatedBuffer where
  limit : Nat
  data : String
  deriving DecidableEq, Repr

/-- Modelled from the spec: `newTruncatedBuffer`, an empty buffer with the given limit. -/
def newTruncatedBuffer (limit : Nat) : truncatedBuffer :=
  { limit := limit, data := "" }

/-- Modelled from the spec: `truncatedBuffer.Write`, which keeps the first `limit` bytes of
everything written so far. -/
def truncatedBuffer.Write (b : truncatedBuffer) (p : String) : truncatedBuffer :=
  { b with data := ⟨(b.data.data ++ p.data).take b.limit⟩ }

/-- Modelled from the spec: `truncatedBuffer.Len`, the number of bytes retained. -/
def truncatedBuffer.Len (b : truncatedBuffer) : Nat :=
  b.data.data.length

/-- Modelled from the spec: `truncatedBuffer.String`, the retained bytes as text. -/
def truncatedBuffer.String (b : truncatedBuffer) : String :=
  b.data

/-- The library functions the pipeline calls and whose code is not part of it. -/
structure Externals where
  /-- Go `net.ParseIP`; `none` is the nil address. -/
  ParseIP : String → Option String
  /-- The MIME type `mimetype` gives to the bytes `DetectReader` has read. -/
  sniff : String → String
  /-- The read limit of `mimetype` (3072 unless changed); 0 means no limit. -/
  readLimit : Nat
  /-- Whether `DetectReader` reads until its buffer is full (`io.ReadFull`) or returns after
  its first non-empty read (`io.ReadAtLeast(r, in, 1)`); releases of `mimetype` differ. -/
  readFull : Bool
  /-- The call `ua.Parse`: name, version, device, OS and OS version of a User-Agent. -/
  uaParse : String → String × String × String × String × String
  /-- The lower-case mapping of `unicode.CaseRanges`, used by `unicode.ToLower` on runes
  above `MaxASCII`. -/
  caseTable : Char → Char

/-- Where a sniffer goroutine stands. -/
inductive SniffPhase where
  /-- Inside `mimetype.DetectReader`, having read `got`. -/
  | detecting (got : String)
  /-- Inside `io.Copy(io.Discard, reader)`. -/
  | draining
  /-- The goroutine has returned; nothing reads the pipe any more. -/
  | returned
  deriving DecidableEq, Repr

/-- A sniffer goroutine reading the read end of an `io.Pipe`. The pipe hands the reader only
data and end of stream, never an error, so the goroutine leaves `DetectReader` with
`err == nil`. -/
structure Sniffer where
  /-- Whether the goroutine runs `io.Copy(io.Discard, reader)` after `DetectReader`. -/
  discards : Bool
  phase : SniffPhase
  /-- The variable the goroutine assigns (`*target`, `me.mime`, `etx.reqMime`, ...). -/
  mime : String
  deriving DecidableEq, Repr

/-- The goroutine `detectMime(target, reader)` of `enrichment.go`, and likewise
`writableMimeReader.detectMime` of `subenrichment-mime.go`: `DetectReader`, the assignment,
then `io.Copy(io.Discard, reader)`. -/
def detectMime : Sniffer :=
  { discards := true, phase := SniffPhase.detecting "", mime := "" }

/-- The goroutine `go func() { ... }()` of `enricher.go`: `DetectReader` and the assignment;
it returns without reading further. -/
def inlineSniffer : Sniffer :=
  { discards := false, phase := SniffPhase.detecting "", mime := "" }

/-- The sniffer once `DetectReader` has returned having read `got`. -/
def Sniffer.classified (ext : Externals) (s : Sniffer) (got : String) : Sniffer :=
  { s with mime := ext.sniff got,
           phase := if s.discards then SniffPhase.draining else SniffPhase.returned }

/-- One `PipeWriter.Write(p)` with `p` non-empty: the sniffer after it has read what it is
going to read of `p`, and the number of bytes of `p` nobody read. The write returns exactly
when that number is 0; otherwise the writer stays blocked. -/
def Sniffer.write (ext : Externals) (s : Sniffer) (p : String) : Sniffer × Nat :=
  match s.phase with
  | SniffPhase.detecting got =>
    if ext.readLimit = 0 then ({ s with phase := SniffPhase.detecting (got ++ p) }, 0)
    else
      let room := ext.readLimit - got.data.length
      if p.data.length < room ∧ ext.readFull then
        ({ s with phase := SniffPhase.detecting (got ++ p) }, 0)
      else
        let s' := s.classified ext (got ++ ⟨p.data.take room⟩)
        (s', if s.discards then 0 else p.data.length - room)
  | SniffPhase.draining => (s, 0)
  | SniffPhase.returned => (s, p.data.length)

/-- The deferred `PipeWriter.Close()`: the reader sees end of stream, so a sniffer still in
`DetectReader` classifies what it has, and a draining one returns. -/
def Sniffer.close (ext : Externals) (s : Sniffer) : Sniffer :=
  match s.phase with
  | SniffPhase.detecting got => { s with mime := ext.sniff got, phase := SniffPhase.returned }
  | _ => { s with phase := SniffPhase.returned }

/-- A call the pipeline makes on the engine transaction. -/
inductive Call where
  | ProcessConnection (client : String) (cPort : Int) (server : String) (sPort : Int)
  | ProcessURI (uri method httpVersion : String)
  | AddRequestHeader (key value : String)
  | ProcessRequestHeaders
  | RequestBodyBufferWrite (p : String)
  | ProcessRequestBody
  | AddResponseHeader (key value : String)
  | ProcessResponseHeaders (code : Int) (proto : String)
  | ResponseBodyBufferWrite (p : String)
  | IsProcessableResponseBody
  | ProcessResponseBody
  | ProcessLogging
  | Clean
  deriving DecidableEq, Repr

/-- The engine transaction `*coraza.Transaction` as a recording double: what it answers is
canned, what it is asked is appended to `calls`. -/
structure Transaction where
  RequestBodyLimit : Nat
  MatchedRules : List MatchedRule
  /-- The answer of `IsProcessableResponseBody()`. -/
  processable : Bool
  /-- The error of `ProcessRequestBody()`, if any. -/
  requestBodyError : Option String
  /-- The error of `ProcessResponseBody()`, if any. -/
  responseBodyError : Option String
  /-- What `ecsx.NewScores` reads out of the transaction. -/
  Scores : List (String × Int)
  calls : List Call
  deriving DecidableEq, Repr

/-- The double records one call. -/
def Transaction.record (tx : Transaction) (c : Call) : Transaction :=
  { tx with calls := tx.calls ++ [c] }

/-- How a pipeline function ends. -/
inductive Outcome (α : Type) where
  /-- It returns a value and a nil error. -/
  | ok (a : α)
  /-- It returns a non-nil error with this text. -/
  | error (msg : String)
  /-- It dereferences nil. -/
  | crash
  /-- It never returns: a pipe write nobody reads. -/
  | blocked
  deriving DecidableEq, Repr

/-- The destinations of one fan-out copy: bounded buffer, sniffer, engine. -/
structure FanOut where
  buf : truncatedBuffer
  sniffer : Sniffer
  tx : Transaction
  deriving DecidableEq, Repr

/-- The writes of `io.Copy(io.MultiWriter(buf, mimeW, engineBuffer), body)`: each chunk read
from the body goes to the buffer, then to the pipe, then to the engine; `sink` names the
engine buffer. The result is `false` when a pipe write never returns. -/
def fanOutWrites (ext : Externals) (sink : String → Call) : List String → FanOut → FanOut × Bool
  | [], f => (f, true)
  | p :: ps, f =>
    if p.data = [] then fanOutWrites ext sink ps f
    else
      let buf := f.buf.Write p
      let (sn, unread) := f.sniffer.write ext p
      if unread = 0 then
        fanOutWrites ext sink ps { buf := buf, sniffer := sn, tx := f.tx.record (sink p) }
      else ({ f with buf := buf, sniffer := sn }, false)

/-- The call `io.Copy(mw, body)`: the writes, then the error of the body, if it has one. -/
def fanOutCopy (ext : Externals) (sink : String → Call) (body : Body) (f : FanOut) :
    FanOut × Outcome Unit :=
  match fanOutWrites ext sink body.chunks f with
  | (f', false) => (f', Outcome.blocked)
  | (f', true) =>
    match body.err with
    | some e => (f', Outcome.error e)
    | none => (f', Outcome.ok ())

/-! ## `enricher.go`: the two phases -/

/-- The type `enricherTransaction` of `enricher.go`; a nil buffer is `none`. -/
structure enricherTransaction where
  tx : Transaction
  msg : httpRecordedMessage
  reqMime : String
  reqBody : Option truncatedBuffer
  resMime : String
  resBody : Option truncatedBuffer

/-- The connection step of `processRequest` (the same text in both files): the peer address
is split at every colon, the client is the pieces but the last joined by the empty string,
the port is the last piece through `Atoi`, whose error is dropped. -/
def clientAndPort (raddr : String) : String × Int :=
  let spl := Split raddr ":"
  let client := if spl.length > 0 then Join (spl.take (spl.length - 1)) "" else ""
  let port := if spl.length > 1 then (Atoi (spl.getLastD "")).1 else 0
  (client, port)

/-- The loop `for k, vr := range req.Header { for _, v := range vr { tx.AddRequestHeader(k, v) } }`. -/
def addRequestHeaders (tx : Transaction) (h : Header) : Transaction :=
  h.foldl (fun tx kv => kv.2.foldl (fun tx v => tx.record (Call.AddRequestHeader kv.1 v)) tx) tx

/-- The loop `for k, v := range res.Header { tx.AddResponseHeader(k, strings.Join(v, ",")) }`. -/
def addResponseHeaders (tx : Transaction) (h : Header) : Transaction :=
  h.foldl (fun tx kv => tx.record (Call.AddResponseHeader kv.1 (Join kv.2 ","))) tx

/-- The body a `truncatedBuffer` is when read back (`req.Body = etx.reqBody`). -/
def truncatedBuffer.asBody (b : truncatedBuffer) : Body :=
  { chunks := [b.data], err := none }

/-- The method `enricherTransaction.processRequest` of `enricher.go`: the transaction as it
leaves it, and how the call ends. -/
def enricherTransaction.processRequest (ext : Externals) (etx : enricherTransaction) :
    enricherTransaction × Outcome Unit :=
  match etx.msg.Request with
  | (msg, Except.error e) => ({ etx with msg := msg }, Outcome.error e)
  | (msg, Except.ok req) =>
    let raddr := if req.RemoteAddr = "" then req.Header.Get "x-forwarded-for" else req.RemoteAddr
    let cp := clientAndPort raddr
    let tx := etx.tx.record (Call.ProcessConnection cp.1 cp.2 "" 0)
    let tx := tx.record (Call.ProcessURI req.URL.Full req.Method req.Proto)
    let tx := addRequestHeaders tx req.Header
    let tx := if req.Host ≠ "" then tx.record (Call.AddRequestHeader "Host" req.Host) else tx
    let tx := tx.record Call.ProcessRequestHeaders
    let f0 : FanOut :=
      { buf := newTruncatedBuffer tx.RequestBodyLimit, sniffer := inlineSniffer, tx := tx }
    match fanOutCopy ext Call.RequestBodyBufferWrite req.Body f0 with
    | (f, Outcome.blocked) =>
      ({ etx with msg := msg, tx := f.tx, reqBody := some f.buf, reqMime := f.sniffer.mime },
        Outcome.blocked)
    | (f, Outcome.crash) =>
      ({ etx with msg := msg, tx := f.tx, reqBody := some f.buf, reqMime := f.sniffer.mime },
        Outcome.crash)
    | (f, Outcome.error e) =>
      ({ etx with msg := msg, tx := f.tx, reqBody := some f.buf,
                  reqMime := (f.sniffer.close ext).mime },
        Outcome.error ("error copying request bode: " ++ e))
    | (f, Outcome.ok _) =>
      let tx := f.tx.record Call.ProcessRequestBody
      match tx.requestBodyError with
      | some e =>
        ({ etx with msg := msg, tx := tx, reqBody := some f.buf,
                    reqMime := (f.sniffer.close ext).mime },
          Outcome.error ("error processing request: " ++ e))
      | none =>
        ({ etx with msg := { msg with req := some { req with Body := f.buf.asBody } },
                    tx := tx, reqBody := some f.buf, reqMime := (f.sniffer.close ext).mime },
          Outcome.ok ())

/-- The method `enricherTransaction.processResponse` of `enricher.go`. The condition after
the copy is `err != nil || !tx.IsProcessableResponseBody()`, both leading to the same
`return fmt.Errorf("error copying response body: %w", err)`; with a nil `err` the verb
`%w` prints as `%!w(<nil>)`. -/
def enricherTransaction.processResponse (ext : Externals) (etx : enricherTransaction) :
    enricherTransaction × Outcome Unit :=
  match etx.msg.Response with
  | (msg, Except.error e) => ({ etx with msg := msg }, Outcome.error e)
  | (msg, Except.ok res) =>
    let tx := addResponseHeaders etx.tx res.Header
    let tx := tx.record (Call.ProcessResponseHeaders res.StatusCode res.Proto)
    let f0 : FanOut :=
      { buf := newTruncatedBuffer tx.RequestBodyLimit, sniffer := inlineSniffer, tx := tx }
    match fanOutCopy ext Call.ResponseBodyBufferWrite res.Body f0 with
    | (f, Outcome.blocked) =>
      ({ etx with msg := msg, tx := f.tx, resBody := some f.buf, resMime := f.sniffer.mime },
        Outcome.blocked)
    | (f, Outcome.crash) =>
      ({ etx with msg := msg, tx := f.tx, resBody := some f.buf, resMime := f.sniffer.mime },
        Outcome.crash)
    | (f, Outcome.error e) =>
      ({ etx with msg := msg, tx := f.tx, resBody := some f.buf,
                  resMime := (f.sniffer.close ext).mime },
        Outcome.error ("error copying response body: " ++ e))
    | (f, Outcome.ok _) =>
      let tx := f.tx.record Call.IsProcessableResponseBody
      if ¬ tx.processable then
        ({ etx with msg := msg, tx := tx, resBody := some f.buf,
                    resMime := (f.sniffer.close ext).mime },
          Outcome.error "error copying response body: %!w(<nil>)")
      else
        let tx := tx.record Call.ProcessResponseBody
        match tx.responseBodyError with
        | some e =>
          ({ etx with msg := msg, tx := tx, resBody := some f.buf,
                      resMime := (f.sniffer.close ext).mime },
            Outcome.error ("error processing response body: " ++ e))
        | none =>
          ({ etx with msg := { msg with res := some { res with Body := f.buf.asBody } },
                      tx := tx, resBody := some f.buf, resMime := (f.sniffer.close ext).mime },
            Outcome.ok ())

/-- The method `Close` (the same text on `enricherTransaction` and on `enrichment`), on the
fields it uses: both bodies are closed, then `ProcessLogging` and `Clean` are called. -/
def closeTransaction (tx : Transaction) (msg : httpRecordedMessage) :
    Transaction × httpRecordedMessage × Outcome Unit :=
  match msg.req with
  | none => (tx, msg, Outcome.crash)
  | some _ =>
    let msg := { msg with reqBodyClosed := msg.reqBodyClosed + 1 }
    match msg.res with
    | none => (tx, msg, Outcome.crash)
    | some _ =>
      let msg := { msg with resBodyClosed := msg.resBodyClosed + 1 }
      ((tx.record Call.ProcessLogging).record Call.Clean, msg, Outcome.ok ())

/-- The method `enricherTransaction.Close`. -/
def enricherTransaction.Close (etx : enricherTransaction) : enricherTransaction × Outcome Unit :=
  let r := closeTransaction etx.tx etx.msg
  ({ etx with tx := r.1, msg := r.2.1 }, r.2.2)

/-- The type `enricher` of `enricher.go`: `waf.NewTransaction()` yields a fresh double. -/
structure enricher where
  waf : Transaction

/-- The method `enricher.newTransaction`. -/
def enricher.newTransaction (er : enricher) (record : Record) : enricherTransaction :=
  { tx := er.waf, msg := newHTTPRecordedMessage record,
    reqMime := "", reqBody := none, resMime := "", resBody := none }

/-- The method `enricher.EnrichRecord`: the transaction it created, as it is when the call
ends, and what the call returns (the transaction, or an error and nil). -/
def enricher.EnrichRecord (ext : Externals) (er : enricher) (record : Record) :
    enricherTransaction × Outcome enricherTransaction :=
  let tx := er.newTransaction record
  match tx.processRequest ext with
  | (tx, Outcome.error e) => (tx, Outcome.error ("error parsing request: " ++ e))
  | (tx, Outcome.crash) => (tx, Outcome.crash)
  | (tx, Outcome.blocked) => (tx, Outcome.blocked)
  | (tx, Outcome.ok _) =>
    match tx.processResponse ext with
    | (tx, Outcome.error e) => (tx, Outcome.error ("error parsing response: " ++ e))
    | (tx, Outcome.crash) => (tx, Outcome.crash)
    | (tx, Outcome.blocked) => (tx, Outcome.blocked)
    | (tx, Outcome.ok _) => (tx, Outcome.ok tx)

/-! ## `enrichment.go`: the two phases -/

/-- A city record of the geo database, reduced to the fields `enrichment.toECS` copies. -/
structure Geo where
  CityName : String
  CountryName : String
  CountryISOCode : String
  ContinentName : String
  ContinentCode : String
  Lon : String
  Lat : String
  PostalCode : String
  Timezone : String
  deriving DecidableEq, Repr

/-- The type `enrichment` of `enrichment.go`; `geoDB` stands for `etx.ercr.geoDB`, `none`
when it is nil, and otherwise the lookup `City`. -/
structure enrichment where
  geoDB : Option (String → Except String Geo)
  tx : Transaction
  msg : httpRecordedMessage
  reqMime : String
  reqBody : Option truncatedBuffer
  resMime : String
  resBody : Option truncatedBuffer

/-- The method `enrichment.processRequest` of `enrichment.go`. -/
def enrichment.processRequest (ext : Externals) (etx : enrichment) : enrichment × Outcome Unit :=
  match etx.msg.Request with
  | (msg, Except.error e) => ({ etx with msg := msg }, Outcome.error e)
  | (msg, Except.ok req) =>
    let cp := clientAndPort req.RemoteAddr
    let tx := etx.tx.record (Call.ProcessConnection cp.1 cp.2 "" 0)
    let tx := tx.record (Call.ProcessURI req.URL.Full req.Method req.Proto)
    let tx := addRequestHeaders tx req.Header
    let tx := if req.Host ≠ "" then tx.record (Call.AddRequestHeader "Host" req.Host) else tx
    let tx :=
      if req.TransferEncoding.length > 0 then
        tx.record (Call.AddRequestHeader "Transfer-Encoding" (Join req.TransferEncoding ","))
      else tx
    let tx := tx.record Call.ProcessRequestHeaders
    let f0 : FanOut :=
      { buf := newTruncatedBuffer tx.RequestBodyLimit, sniffer := detectMime, tx := tx }
    match fanOutCopy ext Call.RequestBodyBufferWrite req.Body f0 with
    | (f, Outcome.blocked) =>
      ({ etx with msg := msg, tx := f.tx, reqBody := some f.buf, reqMime := f.sniffer.mime },
        Outcome.blocked)
    | (f, Outcome.crash) =>
      ({ etx with msg := msg, tx := f.tx, reqBody := some f.buf, reqMime := f.sniffer.mime },
        Outcome.crash)
    | (f, Outcome.error e) =>
      ({ etx with msg := msg, tx := f.tx, reqBody := some f.buf,
                  reqMime := (f.sniffer.close ext).mime },
        Outcome.error ("error copying request bode: " ++ e))
    | (f, Outcome.ok _) =>
      let tx := f.tx.record Call.ProcessRequestBody
      match tx.requestBodyError with
      | some e =>
        ({ etx with msg := msg, tx := tx, reqBody := some f.buf,
                    reqMime := (f.sniffer.close ext).mime },
          Outcome.error ("error processing request: " ++ e))
      | none =>
        ({ etx with msg := msg, tx := tx, reqBody := some f.buf,
                    reqMime := (f.sniffer.close ext).mime },
          Outcome.ok ())

/-- The method `enrichment.processResponse` of `enrichment.go`. The header step ends with
`tx.AddRequestHeader("Transfer-Encoding", ...)` under `len(res.TransferEncoding) > 0`; the
body step never asks `IsProcessableResponseBody`. -/
def enrichment.processResponse (ext : Externals) (etx : enrichment) : enrichment × Outcome Unit :=
  match etx.msg.Response with
  | (msg, Except.error e) => ({ etx with msg := msg }, Outcome.error e)
  | (msg, Except.ok res) =>
    let tx := addResponseHeaders etx.tx res.Header
    let tx :=
      if res.TransferEncoding.length > 0 then
        tx.record (Call.AddRequestHeader "Transfer-Encoding" (Join res.TransferEncoding ","))
      else tx
    let tx := tx.record (Call.ProcessResponseHeaders res.StatusCode res.Proto)
    let f0 : FanOut :=
      { buf := newTruncatedBuffer tx.RequestBodyLimit, sniffer := detectMime, tx := tx }
    match fanOutCopy ext Call.ResponseBodyBufferWrite res.Body f0 with
    | (f, Outcome.blocked) =>
      ({ etx with msg := msg, tx := f.tx, resBody := some f.buf, resMime := f.sniffer.mime },
        Outcome.blocked)
    | (f, Outcome.crash) =>
      ({ etx with msg := msg, tx := f.tx, resBody := some f.buf, resMime := f.sniffer.mime },
        Outcome.crash)
    | (f, Outcome.error e) =>
      ({ etx with msg := msg, tx := f.tx, resBody := some f.buf,
                  resMime := (f.sniffer.close ext).mime },
        Outcome.error ("error copying response body: " ++ e))
    | (f, Outcome.ok _) =>
      let tx := f.tx.record Call.ProcessResponseBody
      match tx.responseBodyError with
      | some e =>
        ({ etx with msg := msg, tx := tx, resBody := some f.buf,
                    resMime := (f.sniffer.close ext).mime },
          Outcome.error ("error processing response body: " ++ e))
      | none =>
        ({ etx with msg := msg, tx := tx, resBody := some f.buf,
                    resMime := (f.sniffer.close ext).mime },
          Outcome.ok ())

/-- The method `enrichment.Close`. -/
def enrichment.Close (etx : enrichment) : enrichment × Outcome Unit :=
  let r := closeTransaction etx.tx etx.msg
  ({ etx with tx := r.1, msg := r.2.1 }, r.2.2)

/-! ## Documents -/

/-- The type `ecs.HTTPMessageBody`. -/
structure HTTPMessageBody where
  Bytes : Nat
  Content : String
  deriving DecidableEq, Repr

/-- The type `ecs.HTTPRequest`, with the fields `toECS` sets; `Headers` is the field the
`ecsx` variant adds (left empty by `enricher.go`). -/
structure HTTPRequest where
  ID : String
  Method : String
  Referrer : String
  MimeType : String
  Body : HTTPMessageBody
  Headers : Header
  deriving DecidableEq, Repr

/-- The type `ecs.HTTPResponse`, with the fields `toECS` sets; `Headers` as for requests. -/
structure HTTPResponse where
  StatusCode : Int
  MimeType : String
  Body : HTTPMessageBody
  Headers : Header
  deriving DecidableEq, Repr

/-- The type `ecs.HTTP`. -/
structure HTTP where
  Version : String
  Request : HTTPRequest
  Response : HTTPResponse
  deriving DecidableEq, Repr

/-- The type `ecs.URL`. -/
structure DocURL where
  Domain : String
  Full : String
  Original : String
  Query : String
  Fragment : String
  Path : String
  Scheme : String
  deriving DecidableEq, Repr

/-- The type `ecs.Event`, with the fields `enrichment.toECS` sets. -/
structure Event where
  Kind : String
  Type_ : List String
  Category : List String
  Created : String
  End : String
  Id : String
  deriving DecidableEq, Repr

/-- The type `ecs.UserAgent`, with device and OS flattened. -/
structure UserAgent where
  Original : String
  Name : String
  Version : String
  DeviceName : String
  OSName : String
  OSVersion : String
  deriving DecidableEq, Repr

/-- The type `ecs.Endpoint`. -/
structure Endpoint where
  IP : String
  Geo : Geo
  deriving DecidableEq, Repr

/-- The document both `toECS` build: `ecs.Document`, and for `enrichment.go` its extension
`ecsx.Document`. Fields `enricher.go` does not set keep their zero value (`""`, `none`,
`[]`). `Threat` is `Threat.Enrichments`. -/
structure Document where
  Message : String
  Timestamp : String
  ECSVersion : String
  Event : Option Event
  URL : DocURL
  Threat : List ThreatEnrichments
  Scores : List (String × Int)
  HTTP : HTTP
  UserAgent : Option UserAgent
  User : Option String
  Client : Option Endpoint
  deriving DecidableEq, Repr

/-! ## Document assembly -/

/-- The text both `toECS` return when `msg.req` or `msg.res` is nil. -/
def errNotProcessed : String :=
  "Please invoke ProcessRequest() and ProcessResponse() first."

/-- The indicator a `toECS` loop iteration starts from (the same text in both files). -/
def newIndicator (ext : Externals) (rule : MatchedRule) : ThreatIndicator :=
  { Description := rule.ErrorLog, IP := ext.ParseIP rule.ClientIPAddress,
    Provider := rule.Version, Type_ := "network-traffic", Confidence := "" }

/-- One iteration of `for _, rule := range tx.MatchedRules` in `enricherTransaction.toECS`;
`enrichments` is `doc.Threat.Enrichments`. -/
def enricherTransaction.toECSRule (ext : Externals) (enrichments : List ThreatEnrichments)
    (rule : MatchedRule) : List ThreatEnrichments :=
  let idc := newIndicator ext rule
  let m : ThreatEnrichmentMatch :=
    { Type_ := "indicator_match_rule", Atomic := Truncate rule.Value 200,
      Field := rule.VariableName }
  let sc := rule.Tags.foldl scanTag { atk := false, Confidence := idc.Confidence }
  if ¬ sc.atk then enrichments
  else enrichments ++ [{ Indicator := { idc with Confidence := sc.Confidence }, Match := m }]

/-- The method `enricherTransaction.toECS` of `enricher.go`. The response summary is built
with `MimeType: etx.reqMime`. -/
def enricherTransaction.toECS (ext : Externals) (etx : enricherTransaction) : Outcome Document :=
  match etx.msg.req, etx.msg.res with
  | some req, some res =>
    match etx.reqBody, etx.resBody with
    | some reqBody, some resBody =>
      let doc : Document :=
        { Message := "recorded HTTP message", Timestamp := "", ECSVersion := "", Event := none,
          HTTP :=
            { Version := toString req.ProtoMajor ++ "." ++ toString req.ProtoMinor,
              Request :=
                { ID := req.Header.Get "x-request-id", Method := req.Method,
                  Referrer := req.Header.Get "Referer", MimeType := etx.reqMime,
                  Body := { Bytes := reqBody.Len, Content := reqBody.String }, Headers := [] },
              Response :=
                { StatusCode := res.StatusCode, MimeType := etx.reqMime,
                  Body := { Bytes := resBody.Len, Content := resBody.String }, Headers := [] } },
          URL :=
            { Domain := req.URL.Host, Full := req.URL.Full, Original := req.URL.Full,
              Query := req.URL.Query, Fragment := req.URL.Fragment, Path := req.URL.Path,
              Scheme := req.URL.Scheme },
          Threat := [], Scores := [], UserAgent := none, User := none, Client := none }
      Outcome.ok
        { doc with
          Threat := etx.tx.MatchedRules.foldl (enricherTransaction.toECSRule ext) doc.Threat }
    | _, _ => Outcome.crash
  | _, _ => Outcome.error errNotProcessed

/-- One iteration of `for _, rule := range tx.MatchedRules` in `enrichment.toECS`; the match
has no `Field`. -/
def enrichment.toECSRule (ext : Externals) (enrichments : List ThreatEnrichments)
    (rule : MatchedRule) : List ThreatEnrichments :=
  let idc := newIndicator ext rule
  let m : ThreatEnrichmentMatch :=
    { Type_ := "indicator_match_rule", Atomic := Truncate rule.Value 200, Field := "" }
  let sc := rule.Tags.foldl scanTag { atk := false, Confidence := idc.Confidence }
  if ¬ sc.atk then enrichments
  else enrichments ++ [{ Indicator := { idc with Confidence := sc.Confidence }, Match := m }]

/-- The block `if v := req.Header.Get("user-agent"); v != "" { doc.UserAgent = ... }` of
`enrichment.toECS`. -/
def enrichment.setUserAgent (ext : Externals) (req : Request) (doc : Document) : Document :=
  let v := req.Header.Get "user-agent"
  if v ≠ "" then
    let uap := ext.uaParse v
    { doc with
      UserAgent := some
        { Original := v, Name := uap.1, Version := uap.2.1, DeviceName := uap.2.2.1,
          OSName := uap.2.2.2.1, OSVersion := uap.2.2.2.2 } }
  else doc

/-- The block `if ctx != nil && ctx.Credential != nil { doc.User = ... }`. -/
def enrichment.setUser (ctx : Context) (doc : Document) : Document :=
  match ctx.Credential with
  | some username => { doc with User := some username }
  | none => doc

/-- The block `if ctx != nil && ctx.Connection != nil && etx.ercr.geoDB != nil { ... }`: the
client is set when the lookup returns no error. -/
def enrichment.setClient (geoDB : Option (String → Except String Geo)) (ctx : Context)
    (doc : Document) : Document :=
  match ctx.Connection, geoDB with
  | some ip, some city =>
    match city ip with
    | Except.ok record => { doc with Client := some { IP := ip, Geo := record } }
    | Except.error _ => doc
  | _, _ => doc

/-- The method `enrichment.toECS` of `enrichment.go`. -/
def enrichment.toECS (ext : Externals) (etx : enrichment) : Outcome Document :=
  match etx.msg.req, etx.msg.res with
  | some req, some res =>
    match etx.msg.Context with
    | Except.error e => Outcome.error ("error geting context: " ++ e)
    | Except.ok ctx =>
      match etx.reqBody, etx.resBody with
      | some reqBody, some resBody =>
        let doc : Document :=
          { Message := "recorded HTTP message", Timestamp := ctx.ProxyStart,
            ECSVersion := "8.3.0",
            Event := some
              { Kind := "event", Type_ := ["access"],
                Category := ["web", "authentication", "network"],
                Created := ctx.TotalStart, End := ctx.TotalEnd, Id := ctx.ID },
            URL :=
              { Domain := req.Host, Full := req.URL.Full, Original := req.URL.Full,
                Query := req.URL.Query, Fragment := req.URL.Fragment, Path := req.URL.Path,
                Scheme := req.URL.Scheme },
            Threat := [], Scores := etx.tx.Scores,
            HTTP :=
              { Version := toString req.ProtoMajor ++ "." ++ toString req.ProtoMinor,
                Request :=
                  { ID := ctx.ID, Method := req.Method, Referrer := req.Header.Get "Referer",
                    MimeType := etx.reqMime,
                    Body := { Bytes := reqBody.Len, Content := reqBody.String },
                    Headers := toLower ext.caseTable req.Header },
                Response :=
                  { StatusCode := res.StatusCode, MimeType := etx.resMime,
                    Body := { Bytes := resBody.Len, Content := resBody.String },
                    Headers := toLower ext.caseTable res.Header } },
            UserAgent := none, User := none, Client := none }
        let doc := enrichment.setUserAgent ext req doc
        let doc := enrichment.setUser ctx doc
        let doc := enrichment.setClient etx.geoDB ctx doc
        Outcome.ok
          { doc with
            Threat := etx.tx.MatchedRules.foldl (enrichment.toECSRule ext) doc.Threat }
      | _, _ => Outcome.crash
  | _, _ => Outcome.error errNotProcessed

/-! ## What the claims speak of -/

/-- A finding is an attack when at least one of its tags has prefix `attack-`. -/
def isAttack (rule : MatchedRule) : Bool :=
  rule.Tags.any (fun tag => HasPrefix tag "attack-")

/-- The enrichment `enricherTransaction.toECS` emits for one qualifying finding: indicator
(with the confidence the tag loop leaves) and match detail. -/
def enricherTransaction.enrichmentOf (ext : Externals) (rule : MatchedRule) : ThreatEnrichments :=
  { Indicator := { newIndicator ext rule with Confidence := (scanTags rule.Tags).Confidence },
    Match :=
      { Type_ := "indicator_match_rule", Atomic := Truncate rule.Value 200,
        Field := rule.VariableName } }

/-- The enrichment `enrichment.toECS` emits for one qualifying finding. -/
def enrichment.enrichmentOf (ext : Externals) (rule : MatchedRule) : ThreatEnrichments :=
  { Indicator := { newIndicator ext rule with Confidence := (scanTags rule.Tags).Confidence },
    Match := { Type_ := "indicator_match_rule", Atomic := Truncate rule.Value 200, Field := "" } }

/-! ## Concrete inputs -/

/-- A case table with one entry, from `É` to `é`. -/
def sampleCaseTable (c : Char) : Char :=
  if c = 'É' then 'é' else c

/-- A stand-in for the libraries: addresses are kept as written, a body starting with a
brace sniffs as JSON, the read limit is the default 3072 of `mimetype`. -/
def sampleExternals : Externals :=
  { ParseIP := fun s => if s = "" then none else some s,
    sniff := fun s =>
      if s = "" then "" else if HasPrefix s "\x7b" then "application/json" else "text/plain",
    readLimit := 3072, readFull := false,
    uaParse := fun v => (v, "", "", "", ""),
    caseTable := sampleCaseTable }

/-- A fresh engine double that finds nothing and accepts both bodies. -/
def sampleWaf : Transaction :=
  { RequestBodyLimit := 131072, MatchedRules := [], processable := true,
    requestBodyError := none, responseBodyError := none, Scores := [], calls := [] }

/-- A GET request without body from peer `[::1]:8080`. -/
def sampleRequest : Request :=
  { Method := "GET", Proto := "HTTP/1.1", ProtoMajor := 1, ProtoMinor := 1,
    Host := "example.org", RemoteAddr := "[::1]:8080",
    URL := { Full := "/a?b=1", Host := "", Query := "b=1", Fragment := "", Path := "/a",
             Scheme := "" },
    Header := [("Accept", ["*/*"])], TransferEncoding := [],
    Body := { chunks := [], err := none } }

/-- A 200 response with a small JSON body, sent chunked. -/
def sampleResponse : Response :=
  { StatusCode := 200, Proto := "HTTP/1.1",
    Header := [("Content-Type", ["application/json"])], TransferEncoding := ["chunked"],
    Body := { chunks := ["\x7b\"a\":1\x7d"], err := none } }

/-- The capture-time context of the sample record. -/
def sampleContext : Context :=
  { ID := "id-1", ProxyStart := "t0", TotalStart := "t0", TotalEnd := "t1",
    Credential := none, Connection := none }

/-- The sample record: request, response and context all parse. -/
def sampleRecord : Record :=
  { request := Except.ok sampleRequest, response := Except.ok sampleResponse,
    context := Except.ok sampleContext }

/-- A finding tagged `attack-sqli` and `paranoia-level/2`. -/
def sampleAttackFinding : MatchedRule :=
  { ErrorLog := "SQL injection", ClientIPAddress := "10.0.0.1", Version := "OWASP_CRS/3.3.2",
    Tags := ["attack-sqli", "paranoia-level/2"], Value := "1 OR 1=1",
    VariableName := "ARGS:b" }

/-- A finding tagged `info` only. -/
def sampleInfoFinding : MatchedRule :=
  { ErrorLog := "note", ClientIPAddress := "10.0.0.1", Version := "OWASP_CRS/3.3.2",
    Tags := ["info"], Value := "x", VariableName := "ARGS:b" }

/-- The two sample findings, the attack first. -/
def sampleFindings : List MatchedRule :=
  [sampleAttackFinding, sampleInfoFinding]

/-- An `enricherTransaction` after both phases: no request body, the JSON response body,
and the two sample findings. -/
def sampleEnricherTransaction : enricherTransaction :=
  { tx := { sampleWaf with MatchedRules := sampleFindings },
    msg := { record := sampleRecord, req := some sampleRequest, res := some sampleResponse,
             reqBodyClosed := 0, resBodyClosed := 0 },
    reqMime := "", reqBody := some (newTruncatedBuffer 131072),
    resMime := "application/json",
    resBody := some ((newTruncatedBuffer 131072).Write "\x7b\"a\":1\x7d") }

/-- An `enrichment` in the same state, without geo database. -/
def sampleEnrichment : enrichment :=
  { geoDB := none,
    tx := { sampleWaf with MatchedRules := sampleFindings },
    msg := { record := sampleRecord, req := some sampleRequest, res := some sampleResponse,
             reqBodyClosed := 0, resBodyClosed := 0 },
    reqMime := "", reqBody := some (newTruncatedBuffer 131072),
    resMime := "application/json",
    resBody := some ((newTruncatedBuffer 131072).Write "\x7b\"a\":1\x7d") }

/-- A finding whose `paranoia-level/1` tag is followed by an `attack-` tag. -/
def sampleLevelOneFinding : MatchedRule :=
  { sampleAttackFinding with Tags := ["paranoia-level/1", "attack-sqli"] }

/-- The sample record, read by a fresh `enricherTransaction`. -/
def sampleNewEnricherTransaction : enricherTransaction :=
  enricher.newTransaction { waf := sampleWaf } sampleRecord

/-- The sample record, read by a fresh `enrichment` without geo database. -/
def sampleNewEnrichment : enrichment :=
  { geoDB := none, tx := sampleWaf, msg := newHTTPRecordedMessage sampleRecord,
    reqMime := "", reqBody := none, resMime := "", resBody := none }

/-- An engine double that reports the response body as not processable. -/
def sampleSkippingWaf : Transaction :=
  { sampleWaf with processable := false }

/-- A record whose request parses and whose response does not. -/
def sampleTruncatedRecord : Record :=
  { sampleRecord with response := Except.error "unexpected EOF" }

/-- A header map with three keys in mixed case, one of them not ASCII. -/
def sampleHeader : Header :=
  [("Content-Type", ["application/json"]), ("X-Request-ID", ["1", "2"]), ("X-É", ["y"])]

/-- The sample `enrichment` after both phases, its request carrying `sampleHeader`. -/
def sampleHeaderEnrichment : enrichment :=
  { sampleEnrichment with
    msg := { record := sampleRecord, req := some { sampleRequest with Header := sampleHeader },
             res := some sampleResponse, reqBodyClosed := 0, resBodyClosed := 0 } }

/-- A body one byte longer than the default read limit of `mimetype`, in one read. -/
def sampleLongBody : String :=
  ⟨List.replicate 3073 'A'⟩

/-- The sample record with the long body as request body. -/
def sampleLongRecord : Record :=
  { sampleRecord with
    request := Except.ok { sampleRequest with Body := { chunks := [sampleLongBody], err := none } } }

/-- The header map `out` is the lower-cased copy of the map `m`: the keys of `out` are
exactly the `ToLower(k)` for `k` a key of `m`, no key occurs twice in `out`, and when `m` is
a map no two keys of which become equal after lower-casing, the value list under
`ToLower(k)` in `out` is `m[k]`, for every key `k` of `m`. -/
def LowerCasedCopy (caseTable : Char → Char) (m out : Header) : Prop :=
  (∀ k', k' ∈ out.keys ↔ ∃ k ∈ m.keys, ToLower caseTable k = k') ∧
  out.keys.Nodup ∧
  (m.keys.Nodup →
    (∀ k1 ∈ m.keys, ∀ k2 ∈ m.keys, ToLower caseTable k1 = ToLower caseTable k2 → k1 = k2) →
    ∀ k ∈ m.keys, out.lookup (ToLower caseTable k) = m.lookup k)

/-- A key is lower-case: `strings.ToLower` leaves it as it is, and it has no letter from
`A` to `Z`. -/
def isLowerCase (caseTable : Char → Char) (k : String) : Prop :=
  ToLower caseTable k = k ∧ ∀ c ∈ k.data, ¬ ('A' ≤ c ∧ c ≤ 'Z')

/-! ## Lemmas on the tag loop and the findings loop -/

theorem scanTag_atk (st : TagScan) (tag : String) :
    (scanTag st tag).atk = (st.atk || HasPrefix tag "attack-") := by
  unfold scanTag
  by_cases h : TrimPrefix tag "paranoia-level/" = "" <;> simp [h]

theorem foldl_scanTag_atk (tags : List String) (st : TagScan) :
    (tags.foldl scanTag st).atk = (st.atk || tags.any (fun tag => HasPrefix tag "attack-")) := by
  induction tags generalizing st with
  | nil => simp
  | cons t ts ih => simp [List.foldl_cons, ih, scanTag_atk, Bool.or_assoc]

theorem scanTags_atk (rule : MatchedRule) : (scanTags rule.Tags).atk = isAttack rule := by
  simp [scanTags, isAttack, foldl_scanTag_atk]

theorem enricherTransaction_toECSRule_eq (ext : Externals) (acc : List ThreatEnrichments)
    (rule : MatchedRule) :
    enricherTransaction.toECSRule ext acc rule =
      if isAttack rule then acc ++ [enricherTransaction.enrichmentOf ext rule] else acc := by
  have h := scanTags_atk rule
  unfold scanTags at h
  unfold enricherTransaction.toECSRule enricherTransaction.enrichmentOf scanTags
  simp only [newIndicator] at h ⊢
  rw [h]
  cases isAttack rule <;> simp

theorem enrichment_toECSRule_eq (ext : Externals) (acc : List ThreatEnrichments)
    (rule : MatchedRule) :
    enrichment.toECSRule ext acc rule =
      if isAttack rule then acc ++ [enrichment.enrichmentOf ext rule] else acc := by
  have h := scanTags_atk rule
  unfold scanTags at h
  unfold enrichment.toECSRule enrichment.enrichmentOf scanTags
  simp only [newIndicator] at h ⊢
  rw [h]
  cases isAttack rule <;> simp

theorem foldl_emit (g : MatchedRule → ThreatEnrichments)
    (step : List ThreatEnrichments → MatchedRule → List ThreatEnrichments)
    (hstep : ∀ acc rule, step acc rule = if isAttack rule then acc ++ [g rule] else acc)
    (rules : List MatchedRule) (acc : List ThreatEnrichments) :
    rules.foldl step acc = acc ++ (rules.filter isAttack).map g := by
  induction rules generalizing acc with
  | nil => simp
  | cons r rs ih =>
    rw [List.foldl_cons, ih, hstep]
    cases hr : isAttack r <;> simp [List.filter_cons, hr]

/-! ## Lemmas on the optional parts of the document -/

theorem enrichment.setUserAgent_keeps (ext : Externals) (req : Request) (doc : Document) :
    (enrichment.setUserAgent ext req doc).Threat = doc.Threat ∧
      (enrichment.setUserAgent ext req doc).HTTP = doc.HTTP := by
  unfold enrichment.setUserAgent
  by_cases h : req.Header.Get "user-agent" = "" <;> simp [h]

theorem enrichment.setUser_keeps (ctx : Context) (doc : Document) :
    (enrichment.setUser ctx doc).Threat = doc.Threat ∧
      (enrichment.setUser ctx doc).HTTP = doc.HTTP := by
  unfold enrichment.setUser
  cases ctx.Credential <;> simp

theorem enrichment.setClient_keeps (geoDB : Option (String → Except String Geo)) (ctx : Context)
    (doc : Document) :
    (enrichment.setClient geoDB ctx doc).Threat = doc.Threat ∧
      (enrichment.setClient geoDB ctx doc).HTTP = doc.HTTP := by
  unfold enrichment.setClient
  cases ctx.Connection with
  | none => simp
  | some ip =>
    cases geoDB with
    | none => simp
    | some city => cases hc : city ip <;> simp [hc]

/-! ## Threat enrichments -/

/-- C1: document assembly returns a document as soon as both messages are parsed and both
buffers exist (and, in `enrichment.go`, the context is available); and whenever it returns a
document, in `enricher.go` and in `enrichment.go` alike, the threat enrichments of that
document are the findings that have a tag with prefix `attack-`, one enrichment for each, in
the order of the engine's list; the other findings contribute nothing. -/
theorem toECS_enrichments_are_attack_findings (ext : Externals) (etx : enricherTransaction)
    (etx' : enrichment) :
    (∀ doc, etx.toECS ext = Outcome.ok doc →
      doc.Threat =
        (etx.tx.MatchedRules.filter isAttack).map (enricherTransaction.enrichmentOf ext)) ∧
    (∀ doc, etx'.toECS ext = Outcome.ok doc →
      doc.Threat = (etx'.tx.MatchedRules.filter isAttack).map (enrichment.enrichmentOf ext)) ∧
    (etx.msg.req ≠ none → etx.msg.res ≠ none → etx.reqBody ≠ none → etx.resBody ≠ none →
      ∃ doc, etx.toECS ext = Outcome.ok doc) ∧
    (etx'.msg.req ≠ none → etx'.msg.res ≠ none → etx'.reqBody ≠ none → etx'.resBody ≠ none →
      (∃ ctx, etx'.msg.Context = Except.ok ctx) → ∃ doc, etx'.toECS ext = Outcome.ok doc) := by
  refine ⟨?_, ?_, ?_, ?_⟩
  · intro doc h
    unfold enricherTransaction.toECS at h
    split at h
    · split at h
      · injection h with h
        subst h
        simp [foldl_emit _ _ (enricherTransaction_toECSRule_eq ext)]
      · cases h
    · cases h
  · intro doc h
    unfold enrichment.toECS at h
    split at h
    · split at h
      · cases h
      · split at h
        · injection h with h
          subst h
          simp [foldl_emit _ _ (enrichment_toECSRule_eq ext), enrichment.setUserAgent_keeps,
            enrichment.setUser_keeps, enrichment.setClient_keeps]
        · cases h
    · cases h
  · intro h1 h2 h3 h4
    obtain ⟨req, hreq⟩ := Option.ne_none_iff_exists'.1 h1
    obtain ⟨res, hres⟩ := Option.ne_none_iff_exists'.1 h2
    obtain ⟨rb, hrb⟩ := Option.ne_none_iff_exists'.1 h3
    obtain ⟨sb, hsb⟩ := Option.ne_none_iff_exists'.1 h4
    unfold enricherTransaction.toECS
    rw [hreq, hres, hrb, hsb]
    exact ⟨_, rfl⟩
  · intro h1 h2 h3 h4 h5
    obtain ⟨req, hreq⟩ := Option.ne_none_iff_exists'.1 h1
    obtain ⟨res, hres⟩ := Option.ne_none_iff_exists'.1 h2
    obtain ⟨rb, hrb⟩ := Option.ne_none_iff_exists'.1 h3
    obtain ⟨sb, hsb⟩ := Option.ne_none_iff_exists'.1 h4
    obtain ⟨ctx, hctx⟩ := h5
    unfold enrichment.toECS
    rw [hreq, hres, hrb, hsb, hctx]
    exact ⟨_, rfl⟩

/-- Witness for C1: on the two sample findings (tags `attack-sqli`, `paranoia-level/2` and
tags `info`) both assemblers return a document with exactly one enrichment, the one of the
first finding. -/
theorem toECS_enrichments_are_attack_findings_witness :
    (∃ doc, sampleEnricherTransaction.toECS sampleExternals = Outcome.ok doc ∧
      doc.Threat = [enricherTransaction.enrichmentOf sampleExternals sampleAttackFinding]
      ∧ doc.Threat.length = 1) ∧
    (∃ doc, sampleEnrichment.toECS sampleExternals = Outcome.ok doc ∧
      doc.Threat = [enrichment.enrichmentOf sampleExternals sampleAttackFinding]
      ∧ doc.Threat.length = 1) := by
  obtain ⟨doc, h⟩ : ∃ doc, sampleEnricherTransaction.toECS sampleExternals = Outcome.ok doc :=
    ⟨_, rfl⟩
  obtain ⟨doc', h'⟩ : ∃ doc, sampleEnrichment.toECS sampleExternals = Outcome.ok doc :=
    ⟨_, rfl⟩
  have key :=
    toECS_enrichments_are_attack_findings sampleExternals sampleEnricherTransaction
      sampleEnrichment
  refine ⟨⟨doc, h, ?_, ?_⟩, ⟨doc', h', ?_, ?_⟩⟩
  · rw [key.1 doc h]; rfl
  · rw [key.1 doc h]; rfl
  · rw [key.2.1 doc' h']; rfl
  · rw [key.2.1 doc' h']; rfl

/-- C2: a finding tagged `paranoia-level/1` and then `attack-sqli` gets confidence
`Not Specified` from both assemblers, not `High`: the tag loop runs its `switch` on every
tag that `TrimPrefix` leaves non-empty, so a later tag without the prefix overwrites the
confidence. With the two tags in the other order the confidence is `High`. -/
theorem toECS_confidence_overwritten_by_later_tag (ext : Externals) :
    sampleLevelOneFinding.Tags = ["paranoia-level/1", "attack-sqli"] ∧
    (∃ doc,
      enricherTransaction.toECS ext
          { sampleEnricherTransaction with
            tx := { sampleWaf with MatchedRules := [sampleLevelOneFinding] } } = Outcome.ok doc ∧
        doc.Threat.map (fun e => e.Indicator.Confidence) = ["Not Specified"]) ∧
    (∃ doc,
      enrichment.toECS ext
          { sampleEnrichment with
            tx := { sampleWaf with MatchedRules := [sampleLevelOneFinding] } } = Outcome.ok doc ∧
        doc.Threat.map (fun e => e.Indicator.Confidence) = ["Not Specified"]) ∧
    (∃ doc,
      enricherTransaction.toECS ext
          { sampleEnricherTransaction with
            tx := { sampleWaf with
                    MatchedRules :=
                      [{ sampleAttackFinding with Tags := ["attack-sqli", "paranoia-level/1"] }] } }
          = Outcome.ok doc ∧
        doc.Threat.map (fun e => e.Indicator.Confidence) = ["High"]) := by
  refine ⟨rfl, ⟨_, rfl, rfl⟩, ⟨_, rfl, ?_⟩, ⟨_, rfl, rfl⟩⟩
  simp [enrichment.setUserAgent_keeps, enrichment.setUser_keeps, enrichment.setClient_keeps]
  rfl

/-! ## Body summaries -/

/-- C3: on a transaction with request MIME `""` and response MIME `application/json`,
`enricherTransaction.toECS` returns a document whose response MIME is `""` (it copies
`etx.reqMime`), while `enrichment.toECS` returns one whose response MIME is
`application/json`. -/
theorem enricher_toECS_response_mime_is_request_mime (ext : Externals) :
    sampleEnricherTransaction.reqMime = "" ∧
    sampleEnricherTransaction.resMime = "application/json" ∧
    (∃ doc, sampleEnricherTransaction.toECS ext = Outcome.ok doc ∧
      doc.HTTP.Response.MimeType = "") ∧
    (∃ doc, sampleEnrichment.toECS ext = Outcome.ok doc ∧
      doc.HTTP.Response.MimeType = "application/json") := by
  refine ⟨rfl, rfl, ⟨_, rfl, rfl⟩, ⟨_, rfl, ?_⟩⟩
  simp [enrichment.setUserAgent_keeps, enrichment.setUser_keeps, enrichment.setClient_keeps]
  rfl

/-! ## Assembly before both phases -/

/-- C10: when `msg.req` or `msg.res` is nil, both `toECS` return the error
`Please invoke ProcessRequest() and ProcessResponse() first.` and no document, whatever the
engine transaction and the two body buffers are (nil buffers included). -/
theorem toECS_before_both_phases_fails (ext : Externals) (etx : enricherTransaction)
    (etx' : enrichment) :
    (etx.msg.req = none ∨ etx.msg.res = none →
      ∀ tx reqBody resBody,
        enricherTransaction.toECS ext { etx with tx := tx, reqBody := reqBody, resBody := resBody }
          = Outcome.error errNotProcessed) ∧
    (etx'.msg.req = none ∨ etx'.msg.res = none →
      ∀ tx reqBody resBody,
        enrichment.toECS ext { etx' with tx := tx, reqBody := reqBody, resBody := resBody }
          = Outcome.error errNotProcessed) := by
  constructor
  · intro h tx reqBody resBody
    unfold enricherTransaction.toECS
    rcases h with h | h
    · simp [h]
    · cases hr : etx.msg.req <;> simp [h]
  · intro h tx reqBody resBody
    unfold enrichment.toECS
    rcases h with h | h
    · simp [h]
    · cases hr : etx'.msg.req <;> simp [h]

/-- Witness for C10: a transaction that has parsed nothing yet gets the error from both
assemblers. -/
theorem toECS_before_both_phases_fails_witness :
    sampleNewEnricherTransaction.msg.req = none ∧ sampleNewEnrichment.msg.req = none ∧
    sampleNewEnricherTransaction.toECS sampleExternals =
      Outcome.error "Please invoke ProcessRequest() and ProcessResponse() first." ∧
    sampleNewEnrichment.toECS sampleExternals =
      Outcome.error "Please invoke ProcessRequest() and ProcessResponse() first." :=
  ⟨rfl, rfl,
    (toECS_before_both_phases_fails sampleExternals sampleNewEnricherTransaction
      sampleNewEnrichment).1 (Or.inl rfl) sampleNewEnricherTransaction.tx none none,
    (toECS_before_both_phases_fails sampleExternals sampleNewEnricherTransaction
      sampleNewEnrichment).2 (Or.inl rfl) sampleNewEnrichment.tx none none⟩

/-! ## The connection step -/

/-- C7: for the peer address `[::1]:8080` the connection step yields client `[1]` and port
8080: the pieces before the last colon are joined by the empty string, so the earlier
colons are lost. Both `processRequest` start by handing that client to the engine. -/
theorem processRequest_client_loses_inner_colons :
    Split "[::1]:8080" ":" = ["[", "", "1]", "8080"] ∧
    clientAndPort "[::1]:8080" = ("[1]", 8080) ∧
    sampleRequest.RemoteAddr = "[::1]:8080" ∧
    (sampleNewEnricherTransaction.processRequest sampleExternals).1.tx.calls.head? =
      some (Call.ProcessConnection "[1]" 8080 "" 0) ∧
    (sampleNewEnrichment.processRequest sampleExternals).1.tx.calls.head? =
      some (Call.ProcessConnection "[1]" 8080 "" 0) := by
  refine ⟨?_, ?_, ?_, ?_, ?_⟩ <;> decide

/-! ## The response phase -/

/-- C8: on the sample response (`Transfer-Encoding: chunked`) the calls that
`enrichment.processResponse` adds to those of the request phase are the response header,
then `AddRequestHeader("Transfer-Encoding", "chunked")`, then the rest of the phase: a
request header is added to the engine during the response phase. -/
theorem enrichment_processResponse_adds_request_header :
    (sampleNewEnrichment.processRequest sampleExternals).2 = Outcome.ok () ∧
    (((sampleNewEnrichment.processRequest sampleExternals).1.processResponse
        sampleExternals).1.tx.calls =
      (sampleNewEnrichment.processRequest sampleExternals).1.tx.calls ++
        [Call.AddResponseHeader "Content-Type" "application/json",
         Call.AddRequestHeader "Transfer-Encoding" "chunked",
         Call.ProcessResponseHeaders 200 "HTTP/1.1",
         Call.ResponseBodyBufferWrite "\x7b\"a\":1\x7d",
         Call.ProcessResponseBody]) := by
  refine ⟨?_, ?_⟩ <;> decide

/-- C5: the sample response is copied without error while the engine reports its body as
not processable. `enricherTransaction.processResponse` then returns the error
`error copying response body: %!w(<nil>)`, with the buffer populated and
`ProcessResponseBody` not called; `enrichment.processResponse` returns no error but never
asks the engine and calls `ProcessResponseBody`. -/
theorem processResponse_not_processable :
    ((enricher.newTransaction { waf := sampleSkippingWaf } sampleRecord).processRequest
        sampleExternals).2 = Outcome.ok () ∧
    (((enricher.newTransaction { waf := sampleSkippingWaf } sampleRecord).processRequest
        sampleExternals).1.processResponse sampleExternals).2 =
      Outcome.error "error copying response body: %!w(<nil>)" ∧
    (((enricher.newTransaction { waf := sampleSkippingWaf } sampleRecord).processRequest
        sampleExternals).1.processResponse sampleExternals).1.resBody =
      some { limit := 131072, data := "\x7b\"a\":1\x7d" } ∧
    Call.ProcessResponseBody ∉
      (((enricher.newTransaction { waf := sampleSkippingWaf } sampleRecord).processRequest
        sampleExternals).1.processResponse sampleExternals).1.tx.calls ∧
    ((({ sampleNewEnrichment with tx := sampleSkippingWaf }).processRequest
        sampleExternals).1.processResponse sampleExternals).2 = Outcome.ok () ∧
    Call.IsProcessableResponseBody ∉
      ((({ sampleNewEnrichment with tx := sampleSkippingWaf }).processRequest
        sampleExternals).1.processResponse sampleExternals).1.tx.calls ∧
    Call.ProcessResponseBody ∈
      ((({ sampleNewEnrichment with tx := sampleSkippingWaf }).processRequest
        sampleExternals).1.processResponse sampleExternals).1.tx.calls := by
  refine ⟨?_, ?_, ?_, ?_, ?_, ?_, ?_⟩ <;> decide

/-! ## Release of resources -/

/-- C6: on a record whose request parses and whose response does not, `EnrichRecord`
returns the error `error parsing response: unexpected EOF` and no transaction, and the
transaction it created has had neither `ProcessLogging` nor `Clean` called and its request
body has not been closed: nothing has been released when `EnrichRecord` returns. -/
theorem EnrichRecord_error_releases_nothing :
    (enricher.EnrichRecord sampleExternals { waf := sampleWaf } sampleTruncatedRecord).2 =
      Outcome.error "error parsing response: unexpected EOF" ∧
    Call.ProcessRequestBody ∈
      (enricher.EnrichRecord sampleExternals { waf := sampleWaf } sampleTruncatedRecord).1.tx.calls ∧
    Call.ProcessLogging ∉
      (enricher.EnrichRecord sampleExternals { waf := sampleWaf } sampleTruncatedRecord).1.tx.calls ∧
    Call.Clean ∉
      (enricher.EnrichRecord sampleExternals { waf := sampleWaf } sampleTruncatedRecord).1.tx.calls ∧
    (enricher.EnrichRecord sampleExternals { waf := sampleWaf }
      sampleTruncatedRecord).1.msg.reqBodyClosed = 0 := by
  refine ⟨rfl, ?_, ?_, ?_, ?_⟩ <;> decide

/-! ## Header maps on output -/

theorem char_le_iff (a b : Char) : a ≤ b ↔ a.toNat ≤ b.toNat := by
  rw [Char.le_def]; exact Iff.rfl

theorem lowerChar_not_upper (c : Char) : ¬ ('A' ≤ lowerChar c ∧ lowerChar c ≤ 'Z') := by
  unfold lowerChar
  by_cases h : 'A' ≤ c ∧ c ≤ 'Z'
  · rw [if_pos h]
    have h1 : 65 ≤ c.toNat := (char_le_iff 'A' c).1 h.1
    have h2 : c.toNat ≤ 90 := (char_le_iff c 'Z').1 h.2
    have hc : c = Char.ofNat c.toNat := (Char.ofNat_toNat c).symm
    generalize c.toNat = n at h1 h2 hc
    subst hc
    interval_cases n <;> decide
  · rw [if_neg h]; exact h

theorem Header.mem_keys_set (m : Header) (k : String) (v : List String) (k' : String) :
    k' ∈ (m.set k v).keys ↔ k' = k ∨ k' ∈ m.keys := by
  induction m with
  | nil => simp [Header.set, Header.keys]
  | cons e rest ih =>
    obtain ⟨k0, v0⟩ := e
    simp only [Header.keys] at ih
    by_cases h : k0 = k
    · subst h
      simp [Header.set, Header.keys]
    · simp only [Header.set, if_neg h, Header.keys, List.map_cons, List.mem_cons, ih]
      tauto

theorem Header.nodup_keys_set (m : Header) (k : String) (v : List String)
    (h : m.keys.Nodup) : (m.set k v).keys.Nodup := by
  induction m with
  | nil => simp [Header.set, Header.keys]
  | cons e rest ih =>
    obtain ⟨k0, v0⟩ := e
    simp only [Header.keys, List.map_cons, List.nodup_cons] at h
    by_cases hk : k0 = k
    · subst hk
      simpa [Header.set, Header.keys] using h
    · have hmem := Header.mem_keys_set rest k v k0
      simp only [Header.keys] at hmem ih
      simp only [Header.set, if_neg hk, Header.keys, List.map_cons, List.nodup_cons]
      refine ⟨?_, ih h.2⟩
      rw [hmem]
      rintro (h' | h')
      · exact hk h'
      · exact h.1 h'

theorem Header.lookup_set_self (m : Header) (k : String) (v : List String) :
    (m.set k v).lookup k = some v := by
  induction m with
  | nil => simp [Header.set, Header.lookup]
  | cons e rest ih =>
    obtain ⟨k0, v0⟩ := e
    by_cases hk : k0 = k
    · simp [Header.set, Header.lookup, hk]
    · simp [Header.set, Header.lookup, hk, ih]

theorem Header.lookup_set_ne (m : Header) (k : String) (v : List String) (k' : String)
    (h : k' ≠ k) : (m.set k v).lookup k' = m.lookup k' := by
  induction m with
  | nil => simp [Header.set, Header.lookup, Ne.symm h]
  | cons e rest ih =>
    obtain ⟨k0, v0⟩ := e
    by_cases hk : k0 = k
    · subst hk
      simp [Header.set, Header.lookup, Ne.symm h]
    · by_cases hk' : k0 = k'
      · subst hk'
        simp [Header.set, Header.lookup, hk]
      · simp [Header.set, Header.lookup, hk, hk', ih]

theorem Header.lookup_of_mem (m : Header) (k : String) (v : List String)
    (hnd : m.keys.Nodup) (h : (k, v) ∈ m) : m.lookup k = some v := by
  induction m with
  | nil => cases h
  | cons e rest ih =>
    obtain ⟨k0, v0⟩ := e
    simp only [Header.keys, List.map_cons, List.nodup_cons] at hnd
    rcases List.mem_cons.1 h with heq | hmem
    · cases heq
      simp [Header.lookup]
    · have hne : k0 ≠ k := by
        rintro rfl
        exact hnd.1 (List.mem_map.2 ⟨(k0, v), hmem, rfl⟩)
      simp only [Header.lookup, if_neg hne]
      exact ih hnd.2 hmem

theorem ToLower_eq_map (caseTable : Char → Char) (s : String) :
    ToLower caseTable s = ⟨s.data.map (unicodeToLower caseTable)⟩ := by
  unfold ToLower
  split
  · rename_i h
    congr 1
    apply List.map_congr_left
    intro c hc
    have hlt := List.all_eq_true.1 h c hc
    simp only [decide_eq_true_eq] at hlt
    unfold unicodeToLower
    rw [if_pos (by omega)]
  · rfl

theorem unicodeToLower_of_ascii (caseTable : Char → Char) (d : Char) (h : d.toNat ≤ 127) :
    unicodeToLower caseTable d = lowerChar d := by
  unfold unicodeToLower
  rw [if_pos h]

theorem unicodeToLower_not_upper (caseTable : Char → Char)
    (hidem : ∀ c, unicodeToLower caseTable (unicodeToLower caseTable c) =
      unicodeToLower caseTable c) (c : Char) :
    ¬ ('A' ≤ unicodeToLower caseTable c ∧ unicodeToLower caseTable c ≤ 'Z') := by
  intro h
  have h2 : (unicodeToLower caseTable c).toNat ≤ 90 := (char_le_iff _ 'Z').1 h.2
  have hfix := hidem c
  have hl : unicodeToLower caseTable (unicodeToLower caseTable c) =
      lowerChar (unicodeToLower caseTable c) :=
    unicodeToLower_of_ascii caseTable _ (by omega)
  rw [hl] at hfix
  have hno := lowerChar_not_upper (unicodeToLower caseTable c)
  rw [hfix] at hno
  exact hno h

theorem ToLower_isLowerCase (caseTable : Char → Char)
    (hidem : ∀ c, unicodeToLower caseTable (unicodeToLower caseTable c) =
      unicodeToLower caseTable c) (k : String) :
    isLowerCase caseTable (ToLower caseTable k) := by
  constructor
  · rw [ToLower_eq_map caseTable (ToLower caseTable k), ToLower_eq_map caseTable k]
    simp only [List.map_map]
    congr 1
    apply List.map_congr_left
    intro c _
    exact hidem c
  · intro c hc
    rw [ToLower_eq_map] at hc
    simp only [List.mem_map] at hc
    obtain ⟨d, _, rfl⟩ := hc
    exact unicodeToLower_not_upper caseTable hidem d

theorem foldl_toLowerStep_m (t : Char → Char) (l : Header) (st : toLowerVars) :
    (l.foldl (toLowerStep t) st).m = st.m := by
  induction l generalizing st with
  | nil => rfl
  | cons e rest ih => rw [List.foldl_cons, ih]; rfl

theorem foldl_toLowerStep_keys (t : Char → Char) (l : Header) (st : toLowerVars)
    (k' : String) :
    k' ∈ (l.foldl (toLowerStep t) st).nm.keys ↔
      k' ∈ st.nm.keys ∨ ∃ k ∈ l.keys, ToLower t k = k' := by
  induction l generalizing st with
  | nil => simp [Header.keys]
  | cons e rest ih =>
    rw [List.foldl_cons, ih]
    have hstep : (toLowerStep t st e).nm = st.nm.set (ToLower t e.1) e.2 := rfl
    have hkeys : Header.keys (e :: rest) = e.1 :: Header.keys rest := rfl
    rw [hstep, Header.mem_keys_set, hkeys]
    simp only [List.mem_cons, exists_eq_or_imp]
    constructor
    · rintro ((h | h) | h)
      · exact Or.inr (Or.inl h.symm)
      · exact Or.inl h
      · exact Or.inr (Or.inr h)
    · rintro (h | h | h)
      · exact Or.inl (Or.inr h)
      · exact Or.inl (Or.inl h.symm)
      · exact Or.inr h

theorem foldl_toLowerStep_nodup (t : Char → Char) (l : Header) (st : toLowerVars)
    (h : st.nm.keys.Nodup) : (l.foldl (toLowerStep t) st).nm.keys.Nodup := by
  induction l generalizing st with
  | nil => exact h
  | cons e rest ih =>
    rw [List.foldl_cons]
    exact ih _ (Header.nodup_keys_set _ _ _ h)

theorem foldl_toLowerStep_lookup_other (t : Char → Char) (l : Header) (st : toLowerVars)
    (k' : String) (h : ∀ k ∈ l.keys, ToLower t k ≠ k') :
    (l.foldl (toLowerStep t) st).nm.lookup k' = st.nm.lookup k' := by
  induction l generalizing st with
  | nil => rfl
  | cons e rest ih =>
    simp only [Header.keys, List.map_cons, List.mem_cons, forall_eq_or_imp] at h
    rw [List.foldl_cons, ih _ (by simpa [Header.keys] using h.2)]
    exact Header.lookup_set_ne _ _ _ _ (Ne.symm h.1)

theorem foldl_toLowerStep_lookup (t : Char → Char) (l : Header) (st : toLowerVars)
    (k : String) (v : List String) (hnd : l.keys.Nodup)
    (hinj : ∀ k1 ∈ l.keys, ∀ k2 ∈ l.keys, ToLower t k1 = ToLower t k2 → k1 = k2)
    (h : (k, v) ∈ l) : (l.foldl (toLowerStep t) st).nm.lookup (ToLower t k) = some v := by
  induction l generalizing st with
  | nil => cases h
  | cons e rest ih =>
    obtain ⟨k0, v0⟩ := e
    simp only [Header.keys, List.map_cons, List.nodup_cons] at hnd
    rw [List.foldl_cons]
    rcases List.mem_cons.1 h with heq | hmem
    · cases heq
      rw [foldl_toLowerStep_lookup_other]
      · exact Header.lookup_set_self _ _ _
      · intro k2 hk2 heq2
        have hk2' : k2 ∈ Header.keys ((k, v) :: rest) := List.mem_cons_of_mem _ hk2
        have hk' : k ∈ Header.keys ((k, v) :: rest) := List.mem_cons_self _ _
        have := hinj k2 hk2' k hk' heq2
        subst this
        exact hnd.1 hk2
    · refine ih _ hnd.2 ?_ hmem
      intro k1 h1 k2 h2
      exact hinj k1 (List.mem_cons_of_mem _ h1) k2 (List.mem_cons_of_mem _ h2)

theorem toLower_lowerCasedCopy (t : Char → Char) (m : Header) :
    LowerCasedCopy t m (toLower t m) := by
  refine ⟨?_, ?_, ?_⟩
  · intro k'
    unfold toLower toLowerRun
    rw [foldl_toLowerStep_keys]
    simp [Header.keys]
  · unfold toLower toLowerRun
    exact foldl_toLowerStep_nodup _ _ _ (by simp [Header.keys])
  · intro hnd hinj k hk
    obtain ⟨⟨k0, v⟩, hmem, hk0⟩ := List.mem_map.1 hk
    simp only at hk0
    subst hk0
    rw [Header.lookup_of_mem m k0 v hnd hmem]
    unfold toLower toLowerRun
    exact foldl_toLowerStep_lookup t m _ k0 v hnd hinj hmem

theorem toLower_keys_isLowerCase (t : Char → Char)
    (hidem : ∀ c, unicodeToLower t (unicodeToLower t c) = unicodeToLower t c) (m : Header) :
    ∀ k' ∈ (toLower t m).keys, isLowerCase t k' := by
  intro k' hk'
  obtain ⟨k, _, rfl⟩ := ((toLower_lowerCasedCopy t m).1 k').1 hk'
  exact ToLower_isLowerCase t hidem k

theorem enrichment_toECS_headers (ext : Externals) (etx : enrichment) (req : Request)
    (res : Response) (hreq : etx.msg.req = some req) (hres : etx.msg.res = some res)
    (doc : Document) (h : etx.toECS ext = Outcome.ok doc) :
    doc.HTTP.Request.Headers = toLower ext.caseTable req.Header ∧
      doc.HTTP.Response.Headers = toLower ext.caseTable res.Header := by
  unfold enrichment.toECS at h
  rw [hreq, hres] at h
  simp only at h
  split at h
  · cases h
  · split at h
    · injection h with h
      subst h
      simp [enrichment.setUserAgent_keeps, enrichment.setUser_keeps, enrichment.setClient_keeps]
    · cases h

theorem enrichment_toECS_returns (ext : Externals) (etx : enrichment) (req : Request)
    (res : Response) (hreq : etx.msg.req = some req) (hres : etx.msg.res = some res)
    (hctx : ∃ ctx, etx.msg.Context = Except.ok ctx) (hrb : etx.reqBody ≠ none)
    (hsb : etx.resBody ≠ none) : ∃ doc, etx.toECS ext = Outcome.ok doc := by
  obtain ⟨rb, hrb⟩ := Option.ne_none_iff_exists'.1 hrb
  obtain ⟨sb, hsb⟩ := Option.ne_none_iff_exists'.1 hsb
  obtain ⟨ctx, hctx⟩ := hctx
  unfold enrichment.toECS
  rw [hreq, hres, hrb, hsb, hctx]
  exact ⟨_, rfl⟩

theorem sampleCaseTable_idempotent (c : Char) :
    unicodeToLower sampleCaseTable (unicodeToLower sampleCaseTable c) =
      unicodeToLower sampleCaseTable c := by
  by_cases hc : c.toNat ≤ 127
  · have h1 : unicodeToLower sampleCaseTable c = lowerChar c := by
      unfold unicodeToLower; rw [if_pos hc]
    rw [h1]
    by_cases hu : 'A' ≤ c ∧ c ≤ 'Z'
    · have hlo : 65 ≤ c.toNat := (char_le_iff 'A' c).1 hu.1
      have hhi : c.toNat ≤ 90 := (char_le_iff c 'Z').1 hu.2
      have hcn : c = Char.ofNat c.toNat := (Char.ofNat_toNat c).symm
      generalize c.toNat = n at hlo hhi hcn
      subst hcn
      interval_cases n <;> decide
    · have h2 : lowerChar c = c := by unfold lowerChar; rw [if_neg hu]
      rw [h2, h1, h2]
  · have h1 : unicodeToLower sampleCaseTable c = sampleCaseTable c := by
      unfold unicodeToLower; rw [if_neg hc]
    rw [h1]
    by_cases he : c = 'É'
    · subst he; decide
    · have hs : sampleCaseTable c = c := by unfold sampleCaseTable; rw [if_neg he]
      rw [hs, h1, hs]

/-- C9: let `enrichment.toECS` return a document for a transaction with request `req` and
response `res` (it does so as soon as the context is available and both buffers exist).
Then the header maps of the document are `toLower(req.Header)` and `toLower(res.Header)`;
each has exactly the keys `ToLower(k)` for `k` a key of the map it comes from, has no key
twice, and carries `m[k]` under `ToLower(k)` whenever `m` is a map no two keys of which
collide after lower-casing; every key of either is lower-case, given that the case table of
the library maps every rune to one it leaves alone; and the closure leaves its argument as
it was. -/
theorem toECS_headers_are_lower_cased_copies (ext : Externals) (etx : enrichment)
    (req : Request) (res : Response)
    (hreq : etx.msg.req = some req) (hres : etx.msg.res = some res) :
    ((∃ ctx, etx.msg.Context = Except.ok ctx) → etx.reqBody ≠ none → etx.resBody ≠ none →
      ∃ doc, etx.toECS ext = Outcome.ok doc) ∧
    (∀ doc, etx.toECS ext = Outcome.ok doc →
      doc.HTTP.Request.Headers = toLower ext.caseTable req.Header ∧
      doc.HTTP.Response.Headers = toLower ext.caseTable res.Header ∧
      LowerCasedCopy ext.caseTable req.Header doc.HTTP.Request.Headers ∧
      LowerCasedCopy ext.caseTable res.Header doc.HTTP.Response.Headers ∧
      ((∀ c, unicodeToLower ext.caseTable (unicodeToLower ext.caseTable c) =
          unicodeToLower ext.caseTable c) →
        (∀ k' ∈ doc.HTTP.Request.Headers.keys, isLowerCase ext.caseTable k') ∧
        (∀ k' ∈ doc.HTTP.Response.Headers.keys, isLowerCase ext.caseTable k'))) ∧
    (toLowerRun ext.caseTable req.Header).m = req.Header ∧
    (toLowerRun ext.caseTable res.Header).m = res.Header := by
  refine ⟨enrichment_toECS_returns ext etx req res hreq hres, ?_, ?_, ?_⟩
  · intro doc h
    obtain ⟨h1, h2⟩ := enrichment_toECS_headers ext etx req res hreq hres doc h
    rw [h1, h2]
    exact ⟨rfl, rfl, toLower_lowerCasedCopy _ _, toLower_lowerCasedCopy _ _,
      fun hidem => ⟨toLower_keys_isLowerCase _ hidem _, toLower_keys_isLowerCase _ hidem _⟩⟩
  · unfold toLowerRun
    exact foldl_toLowerStep_m _ _ _
  · unfold toLowerRun
    exact foldl_toLowerStep_m _ _ _


/-- Witness for C9: on the sample transaction whose request has the keys `Content-Type`,
`X-Request-ID` and `X-É`, the document carries the same value lists under `content-type`,
`x-request-id` and `x-é`, and all its request header keys are lower-case. -/
theorem toECS_headers_are_lower_cased_copies_witness :
    ∃ doc, sampleHeaderEnrichment.toECS sampleExternals = Outcome.ok doc ∧
      doc.HTTP.Request.Headers =
        [("content-type", ["application/json"]), ("x-request-id", ["1", "2"]),
         ("x-é", ["y"])] ∧
      doc.HTTP.Response.Headers = [("content-type", ["application/json"])] ∧
      doc.HTTP.Request.Headers.lookup "x-é" = some ["y"] ∧
      (∀ k' ∈ doc.HTTP.Request.Headers.keys, isLowerCase sampleCaseTable k') := by
  have key :=
    toECS_headers_are_lower_cased_copies sampleExternals sampleHeaderEnrichment
      { sampleRequest with Header := sampleHeader } sampleResponse rfl rfl
  obtain ⟨doc, h⟩ := key.1 ⟨sampleContext, rfl⟩ (by decide) (by decide)
  obtain ⟨h1, h2, h3, _, h5⟩ := key.2.1 doc h
  refine ⟨doc, h, ?_, ?_, ?_, ?_⟩
  · rw [h1]; decide
  · rw [h2]; decide
  · exact (h3.2.2 (by decide) (by decide) "X-É" (by decide)).trans (by decide)
  · exact (h5 sampleCaseTable_idempotent).1

/-! ## The sniffer side of the fan-out -/

theorem Sniffer.write_discards (ext : Externals) (s : Sniffer) (p : String)
    (h : s.discards = true ∧ s.phase ≠ SniffPhase.returned) :
    (s.write ext p).2 = 0 ∧
      (s.write ext p).1.discards = true ∧ (s.write ext p).1.phase ≠ SniffPhase.returned := by
  unfold Sniffer.write
  cases hp : s.phase with
  | detecting got =>
    simp only
    split_ifs <;> simp_all [Sniffer.classified]
  | draining => simp [h.1, hp]
  | returned => exact absurd hp h.2

theorem fanOutWrites_discards (ext : Externals) (sink : String → Call) (ps : List String)
    (f : FanOut) (h : f.sniffer.discards = true ∧ f.sniffer.phase ≠ SniffPhase.returned) :
    (fanOutWrites ext sink ps f).2 = true := by
  induction ps generalizing f with
  | nil => rfl
  | cons p ps ih =>
    unfold fanOutWrites
    by_cases hp : p.data = []
    · rw [if_pos hp]; exact ih f h
    · rw [if_neg hp]
      have hw := Sniffer.write_discards ext f.sniffer p h
      simp only [hw.1, if_true]
      exact ih _ hw.2

theorem fanOutCopy_discards (ext : Externals) (sink : String → Call) (body : Body) (f : FanOut)
    (h : f.sniffer.discards = true ∧ f.sniffer.phase ≠ SniffPhase.returned) :
    (fanOutCopy ext sink body f).2 ≠ Outcome.blocked := by
  have hw := fanOutWrites_discards ext sink body.chunks f h
  unfold fanOutCopy
  cases hr : fanOutWrites ext sink body.chunks f with
  | mk f' b =>
    rw [hr] at hw
    simp only at hw
    subst hw
    cases body.err <;> simp

theorem detectMime_discards :
    detectMime.discards = true ∧ detectMime.phase ≠ SniffPhase.returned :=
  ⟨rfl, by simp [detectMime]⟩

theorem inlineSniffer_write_long (ext : Externals) (p : String) (hlimit : 0 < ext.readLimit)
    (hlong : ext.readLimit < p.data.length) : (inlineSniffer.write ext p).2 ≠ 0 := by
  have h0 : ext.readLimit ≠ 0 := by omega
  have hlen : ("" : String).data.length = 0 := rfl
  have h1 : ¬ (p.data.length < ext.readLimit ∧ ext.readFull = true) := by
    intro h
    have := h.1
    omega
  unfold Sniffer.write inlineSniffer
  simp only [hlen, Nat.sub_zero, if_neg h0, if_neg h1]
  have hl : p.length = p.data.length := rfl
  simp
  omega

theorem fanOutCopy_inline_long (ext : Externals) (sink : String → Call) (p : String)
    (rest : List String) (body : Body) (buf : truncatedBuffer) (tx : Transaction)
    (hbody : body.chunks = p :: rest)
    (hlimit : 0 < ext.readLimit) (hlong : ext.readLimit < p.data.length) :
    (fanOutCopy ext sink body { buf := buf, sniffer := inlineSniffer, tx := tx }).2 =
      Outcome.blocked := by
  have hp : p.data ≠ [] := by
    intro h
    rw [h] at hlong
    simp at hlong
  have hw := inlineSniffer_write_long ext p hlimit hlong
  unfold fanOutCopy
  rw [hbody]
  unfold fanOutWrites
  simp only [if_neg hp, if_neg hw]

theorem enrichment.processRequest_not_blocked (ext : Externals) (etx : enrichment) :
    (etx.processRequest ext).2 ≠ Outcome.blocked := by
  unfold enrichment.processRequest
  cases hq : etx.msg.Request with
  | mk msg r =>
    cases r with
    | error e => simp
    | ok req =>
      simp only
      generalize hg : fanOutCopy ext Call.RequestBodyBufferWrite req.Body _ = r
      have h : r.2 ≠ Outcome.blocked := by
        rw [← hg]
        exact fanOutCopy_discards _ _ _ _ detectMime_discards
      obtain ⟨f, o⟩ := r
      cases o with
      | blocked => exact absurd rfl h
      | crash => simp
      | error e => simp
      | ok a =>
        simp only
        split <;> simp

theorem enrichment.processResponse_not_blocked (ext : Externals) (etx : enrichment) :
    (etx.processResponse ext).2 ≠ Outcome.blocked := by
  unfold enrichment.processResponse
  cases hq : etx.msg.Response with
  | mk msg r =>
    cases r with
    | error e => simp
    | ok res =>
      simp only
      generalize hg : fanOutCopy ext Call.ResponseBodyBufferWrite res.Body _ = r
      have h : r.2 ≠ Outcome.blocked := by
        rw [← hg]
        exact fanOutCopy_discards _ _ _ _ detectMime_discards
      obtain ⟨f, o⟩ := r
      cases o with
      | blocked => exact absurd rfl h
      | crash => simp
      | error e => simp
      | ok a =>
        simp only
        split <;> simp

/-- C4: with a read limit in force, the goroutine `detectMime` of `enrichment.go` keeps
reading, so neither phase of `enrichment` ever stays blocked in the body copy; the inline
goroutines of `enricher.go` return once `DetectReader` has returned, so a request or
response body whose first read is longer than the read limit leaves
`enricherTransaction.processRequest` (`processResponse`) blocked in the pipe write. -/
theorem inline_sniffer_blocks_long_body (ext : Externals) (p : String)
    (hlimit : 0 < ext.readLimit) (hlong : ext.readLimit < p.data.length) :
    (∀ etx : enrichment,
      (etx.processRequest ext).2 ≠ Outcome.blocked ∧
        (etx.processResponse ext).2 ≠ Outcome.blocked) ∧
    (∀ (etx : enricherTransaction) msg req rest,
      etx.msg.Request = (msg, Except.ok req) → req.Body.chunks = p :: rest →
        (etx.processRequest ext).2 = Outcome.blocked) ∧
    (∀ (etx : enricherTransaction) msg res rest,
      etx.msg.Response = (msg, Except.ok res) → res.Body.chunks = p :: rest →
        (etx.processResponse ext).2 = Outcome.blocked) := by
  refine ⟨fun etx => ⟨enrichment.processRequest_not_blocked ext etx,
    enrichment.processResponse_not_blocked ext etx⟩, ?_, ?_⟩
  · intro etx msg req rest hreq hbody
    unfold enricherTransaction.processRequest
    rw [hreq]
    simp only
    generalize hg : fanOutCopy ext Call.RequestBodyBufferWrite req.Body _ = r
    have h : r.2 = Outcome.blocked := by
      rw [← hg]
      exact fanOutCopy_inline_long ext _ p rest req.Body _ _ hbody hlimit hlong
    obtain ⟨f, o⟩ := r
    simp only at h
    subst h
    rfl
  · intro etx msg res rest hres hbody
    unfold enricherTransaction.processResponse
    rw [hres]
    simp only
    generalize hg : fanOutCopy ext Call.ResponseBodyBufferWrite res.Body _ = r
    have h : r.2 = Outcome.blocked := by
      rw [← hg]
      exact fanOutCopy_inline_long ext _ p rest res.Body _ _ hbody hlimit hlong
    obtain ⟨f, o⟩ := r
    simp only at h
    subst h
    rfl

/-- Witness for C4: with the default read limit 3072, a request body of 3073 bytes in one
read leaves `enricherTransaction.processRequest` blocked, and `EnrichRecord` with it. -/
theorem inline_sniffer_blocks_long_body_witness :
    sampleExternals.readLimit = 3072 ∧ sampleLongBody.data.length = 3073 ∧
    ((enricher.newTransaction { waf := sampleWaf } sampleLongRecord).processRequest
      sampleExternals).2 = Outcome.blocked :=
  ⟨rfl, by simp only [sampleLongBody, List.length_replicate],
    (inline_sniffer_blocks_long_body sampleExternals sampleLongBody (by decide)
      (by simp only [sampleLongBody, sampleExternals, List.length_replicate]; decide)).2.1
      (enricher.newTransaction { waf := sampleWaf } sampleLongRecord) _ _ [] rfl rfl⟩

end Enrichment
